import Mathlib

/-!
Shallow embedding of the TART gridless-imaging core (tart-telescope/web_app,
`src/rust/src/`): the hemisphere tessellation (`sphere.rs`), the fast
trigonometry primitives (`utils.rs`), the gridless reconstruction engine
(`gridless_core.rs`), the antenna calibration (`tart_obs.rs`) and the
single-slot hemisphere cache (`wasm/cache.rs`).

Machine floats (`f32`) are modelled as real numbers, `ndarray::Array1` and
`Vec` as Lean lists, complex `C64` values as `ℂ`, and the fallible in-place
mutation of `reconstruct_sky_image` as explicit state passing returning the
result together with the final hemisphere value.
-/

namespace Tart

noncomputable section

open scoped Classical

/-- Embeds the constant `PI` of `utils.rs` (the `f32` π, idealized as the real π). -/
def PI : ℝ := Real.pi

/-- Embeds the constant `TWO_PI = 2.0 * PI` of `utils.rs`. -/
def TWO_PI : ℝ := 2 * PI

/-- Embeds the constant `PI_HALF = PI / 2.0` of `utils.rs`. -/
def PI_HALF : ℝ := PI / 2

/-- Embeds the constant `PI_OVER_2 = PI_HALF` of `utils.rs` (legacy alias). -/
def PI_OVER_2 : ℝ := PI_HALF

/-- Rust `f32::round`: round half away from zero, as an integer result. -/
def rustRound (x : ℝ) : ℤ := if 0 ≤ x then ⌊x + 1 / 2⌋ else -⌊-x + 1 / 2⌋

/-- Embeds `fast_sin_cos` of `utils.rs` (the `fast-math` branch): range
reduction by rounding `x / 2π`, symmetry reduction to `[0, π/2]`, then the
degree-7/degree-6 Taylor polynomials evaluated by Horner's rule.
Returns the pair `(sin x, cos x)` of approximations. -/
def fastSinCos (x : ℝ) : ℝ × ℝ :=
  let inv2pi : ℝ := 1 / TWO_PI
  let angle : ℝ := x - (rustRound (x * inv2pi) : ℝ) * TWO_PI
  let absAngle : ℝ := |angle|
  let signSin : ℝ := if 0 ≤ angle then 1 else -1
  let reduced : ℝ × ℝ × ℝ :=
    if absAngle ≤ PI_HALF then (absAngle, 1, signSin)
    else (PI - absAngle, -1, signSin)
  let reducedAngle : ℝ := reduced.1
  let cosSign : ℝ := reduced.2.1
  let sinSign : ℝ := reduced.2.2
  let x2 : ℝ := reducedAngle * reducedAngle
  let sinPoly : ℝ := 1 - x2 * (1 / 6 - x2 * (1 / 120 - x2 / 5040))
  let sinApprox : ℝ := reducedAngle * sinPoly
  let cosPoly : ℝ := 1 - x2 * (1 / 2 - x2 * (1 / 24 - x2 / 720))
  (sinApprox * sinSign, cosPoly * cosSign)

/-- Embeds `fast_magnitude` of `utils.rs` (the `fast-math` branch):
`sqrt(norm_sqr)` with an explicit zero check. -/
def fastMagnitude (z : ℂ) : ℝ :=
  let normSq := Complex.normSq z
  if normSq = 0 then 0 else Real.sqrt normSq

/-- Embeds the `ElAz` struct of `sphere.rs` (elevation and azimuth in radians). -/
structure ElAz where
  el : ℝ
  az : ℝ

/-- Embeds the `Hemisphere` struct of `sphere.rs`. -/
structure Hemisphere where
  nside : ℕ
  npix : ℕ
  visible_pix : List ℝ
  visible_indices : List ℕ
  elaz : List ElAz
  l : List ℝ
  m : List ℝ
  n : List ℝ

/-- Modelled from the spec: the pixel count `n_hash(nside) = 12·nside²` of the
hierarchical equal-area sphere tessellation (HEALPix ring scheme); the
implementation lives in the external `cdshealpix` crate, not under `src/`. -/
def nHash (nside : ℕ) : ℕ := 12 * nside * nside

/-- Modelled from the spec: number of pixels in the north polar cap of the
HEALPix ring tessellation, `2·nside·(nside − 1)` (external `cdshealpix` crate). -/
def nCap (nside : ℕ) : ℕ := 2 * nside * (nside - 1)

/-- Modelled from the spec: the ring index of a polar-cap pixel of the HEALPix
ring tessellation (external `cdshealpix` crate).  Pixel `p` lies in cap ring
`i` iff `2i(i−1) ≤ p < 2i(i+1)`. -/
def capRing (p : ℕ) : ℕ := (1 + Nat.sqrt (1 + 2 * p)) / 2

/-- Modelled from the spec: `z = cos θ` of the center of pixel `p` of the
HEALPix ring tessellation for resolution `nside` (external `cdshealpix`
crate).  Polar-cap rings have `z = ±(1 − i²/(3·nside²))`, equatorial-belt
rings have `z = 4/3 − 2i/(3·nside)`. -/
def centerZ (nside p : ℕ) : ℚ :=
  if p < nCap nside then
    1 - (capRing p : ℚ) ^ 2 / (3 * (nside : ℚ) ^ 2)
  else if p < nHash nside - nCap nside then
    4 / 3 - 2 * (((p - nCap nside) / (4 * nside) + nside : ℕ) : ℚ) / (3 * (nside : ℚ))
  else
    -(1 - (capRing (nHash nside - 1 - p) : ℚ) ^ 2 / (3 * (nside : ℚ) ^ 2))

/-- Modelled from the spec: the longitude of the center of pixel `p` of the
HEALPix ring tessellation, as a fraction of π (external `cdshealpix` crate). -/
def centerLonFrac (nside p : ℕ) : ℚ :=
  if p < nCap nside then
    let i := capRing p
    let j := p - 2 * i * (i - 1)
    ((j : ℚ) + 1 / 2) / (2 * (i : ℚ))
  else if p < nHash nside - nCap nside then
    let i := (p - nCap nside) / (4 * nside) + nside
    let j := (p - nCap nside) % (4 * nside)
    let s := (i - nside + 1) % 2
    ((j : ℚ) + (s : ℚ) / 2) / (2 * (nside : ℚ))
  else
    let p2 := nHash nside - 1 - p
    let i := capRing p2
    let j := 4 * i - 1 - (p2 - 2 * i * (i - 1))
    ((j : ℚ) + 1 / 2) / (2 * (i : ℚ))

/-- Modelled from the spec: `cdshealpix::ring::center(nside, pix)`, returning
the `(lon, lat)` angular center of a tessellation pixel (external crate, not
under `src/`); the latitude is `arcsin z`. -/
def center (nside p : ℕ) : ℝ × ℝ :=
  (PI * (centerLonFrac nside p : ℝ), Real.arcsin (centerZ nside p))

/-- The colatitude `theta = PI_OVER_2 - lat` computed for pixel `p` in
`Hemisphere::compute_new_scalar` (`sphere.rs`). -/
def pixTheta (nside p : ℕ) : ℝ := PI_OVER_2 - (center nside p).2

/-- The elevation `el = PI_OVER_2 - theta` of pixel `p`
(`Hemisphere::compute_new_scalar`, `sphere.rs`). -/
def pixEl (nside p : ℕ) : ℝ := PI_OVER_2 - pixTheta nside p

/-- The azimuth `az = -lon` of pixel `p`
(`Hemisphere::compute_new_scalar`, `sphere.rs`). -/
def pixAz (nside p : ℕ) : ℝ := -(center nside p).1

/-- Direction cosine `l = sin_az * cos_el` of pixel `p`, via `fast_sin_cos`
(`Hemisphere::compute_new_scalar`, `sphere.rs`). -/
def pixL (nside p : ℕ) : ℝ := (fastSinCos (pixAz nside p)).1 * (fastSinCos (pixEl nside p)).2

/-- Direction cosine `m = cos_az * cos_el` of pixel `p`, via `fast_sin_cos`
(`Hemisphere::compute_new_scalar`, `sphere.rs`). -/
def pixM (nside p : ℕ) : ℝ := (fastSinCos (pixAz nside p)).2 * (fastSinCos (pixEl nside p)).2

/-- Direction cosine `n = sin_el` of pixel `p`, via `fast_sin_cos`
(`Hemisphere::compute_new_scalar`, `sphere.rs`). -/
def pixN (nside p : ℕ) : ℝ := (fastSinCos (pixEl nside p)).1

/-- The visibility filter of `Hemisphere::compute_new_scalar` (`sphere.rs`):
a pixel is kept iff its colatitude satisfies `theta < PI_OVER_2`. -/
def visibleList (nside : ℕ) : List ℕ :=
  (List.range (nHash nside)).filter fun p => decide (pixTheta nside p < PI_OVER_2)

/-- Embeds `Hemisphere::compute_new_scalar` of `sphere.rs`: enumerate the
tessellation pixels, keep those with colatitude `theta < PI_OVER_2`, and
build the parallel arrays of brightness (zero-initialized), pixel indices,
elevation/azimuth and direction cosines.  (The Rust two-pass count-then-fill
strategy is a pre-allocation device producing these same lists.) -/
def computeNewScalar (nside : ℕ) : Hemisphere :=
  let visible := visibleList nside
  { nside := nside
    npix := visible.length
    visible_pix := visible.map fun _ => (0 : ℝ)
    visible_indices := visible
    elaz := visible.map fun p => ElAz.mk (pixEl nside p) (pixAz nside p)
    l := visible.map fun p => pixL nside p
    m := visible.map fun p => pixM nside p
    n := visible.map fun p => pixN nside p }

/-- Embeds `Hemisphere::new` of `sphere.rs` (the non-wasm32 branch delegates
to `compute_new_scalar`). -/
def Hemisphere.new (nside : ℕ) : Hemisphere := computeNewScalar nside

/-- The per-pixel body of `compute_fourier_harmonics` (`gridless_core.rs`):
`phase = phase_mult * (u*l + v*m + w*(n − 1))` with `phase_mult = -TWO_PI`,
then the harmonic `(re, im) = (cos phase, sin phase)` via `fast_sin_cos`. -/
def harmonicAt (sky : Hemisphere) (u v w : ℝ) (p : ℕ) : ℂ :=
  let phaseMult : ℝ := -TWO_PI
  let nMinusOne : ℝ := sky.n.getD p 0 - 1
  let phase : ℝ := phaseMult * (u * sky.l.getD p 0 + v * sky.m.getD p 0 + w * nMinusOne)
  let sc := fastSinCos phase
  ⟨sc.2, sc.1⟩

/-- Embeds `compute_fourier_harmonics` of `gridless_core.rs`: one complex
array per baseline, one harmonic per visible sky pixel (the Rust `Zip` loops
are elementwise, embedded per index). -/
def computeFourierHarmonics (sky : Hemisphere) (uCoords vCoords wCoords : List ℝ) :
    List (List ℂ) :=
  (List.range uCoords.length).map fun baselineIdx =>
    (List.range sky.visible_pix.length).map fun p =>
      harmonicAt sky (uCoords.getD baselineIdx 0) (vCoords.getD baselineIdx 0)
        (wCoords.getD baselineIdx 0) p

/-- One iteration of the accumulation loop of `reconstruct_sky_image`
(`gridless_core.rs`): `complex_pixels += visibility * harmonic`, with the
complex product written out on real and imaginary parts as in the source. -/
def accumStep (visibility : ℂ) (acc harmonic : List ℂ) : List ℂ :=
  (List.range acc.length).map fun p =>
    let pixel := acc.getD p 0
    let harmonicVal := harmonic.getD p 0
    ⟨pixel.re + (visibility.re * harmonicVal.re - visibility.im * harmonicVal.im),
     pixel.im + (visibility.re * harmonicVal.im + visibility.im * harmonicVal.re)⟩

/-- Embeds `reconstruct_sky_image` of `gridless_core.rs`.  The Rust function
mutates `sky` in place and returns `Result<(), &str>`; here the result is
returned together with the final hemisphere value (unchanged on error, since
in the source both error returns precede the write to `sky.visible_pix`). -/
def reconstructSkyImage (visibilities : List ℂ) (uCoords vCoords wCoords : List ℝ)
    (sky : Hemisphere) (useRealOnly : Bool) : Except String Unit × Hemisphere :=
  let numBaselines := visibilities.length
  if numBaselines ≠ uCoords.length ∨ numBaselines ≠ vCoords.length ∨
      numBaselines ≠ wCoords.length then
    (Except.error "Visibility and coordinate arrays must have same length", sky)
  else
    let numSkyPixels := sky.visible_pix.length
    if numSkyPixels = 0 then
      (Except.error "Sky hemisphere has no visible pixels", sky)
    else
      let harmonics := computeFourierHarmonics sky uCoords vCoords wCoords
      let complexPixels := (List.range numBaselines).foldl
        (fun acc baselineIdx =>
          accumStep (visibilities.getD baselineIdx 0) acc (harmonics.getD baselineIdx []))
        (List.replicate numSkyPixels (0 : ℂ))
      let normalization : ℝ := (Real.sqrt (numSkyPixels : ℝ))⁻¹
      let newPix : List ℝ :=
        if useRealOnly then
          complexPixels.map fun pixel => pixel.re * normalization
        else
          complexPixels.map fun pixel => fastMagnitude pixel * normalization
      (Except.ok (), { sky with visible_pix := newPix })

/-- Embeds the `Gains` struct of `tart_api.rs` (per-antenna gain and phase
offset). -/
structure Gains where
  gain : List ℝ
  phase_offset : List ℝ

/-- Embeds `apply_gains_optimized` of `tart_obs.rs` (the non-wasm32 scalar
branch): for baseline `(i, j)`,
`theta = -(0 + (phase_offset[i] - phase_offset[j])·I)` and
`cal_vis[k] = vis[k] * gain[i] * gain[j] * exp(theta)`. -/
def applyGainsOptimized (baselines : List (ℕ × ℕ)) (visArr : List ℂ) (cal : Gains) :
    List ℂ :=
  (List.range baselines.length).map fun k =>
    let i := (baselines.getD k (0, 0)).1
    let j := (baselines.getD k (0, 0)).2
    let theta : ℂ := -⟨0, cal.phase_offset.getD i 0 - cal.phase_offset.getD j 0⟩
    visArr.getD k 0 * ((cal.gain.getD i 0 : ℝ) : ℂ) * ((cal.gain.getD j 0 : ℝ) : ℂ) *
      Complex.exp theta

/-- Embeds the `HemisphereData` record that `to_binary`/`from_binary`
(`sphere.rs`) serialize: the geometry fields of a `Hemisphere` without the
brightness array. -/
structure HemisphereData where
  nside : ℕ
  npix : ℕ
  visible_indices : List ℕ
  l_coords : List ℝ
  m_coords : List ℝ
  n_coords : List ℝ
  elaz_el : List ℝ
  elaz_az : List ℝ

/-- Embeds `Hemisphere::to_binary` of `sphere.rs`.  Modelled from the spec:
the `bitcode` byte encoding (external crate, not under `src/`) is modelled as
the encoded record itself, per the spec's round-trip-fidelity requirement. -/
def Hemisphere.toBinary (h : Hemisphere) : HemisphereData :=
  { nside := h.nside
    npix := h.npix
    visible_indices := h.visible_indices
    l_coords := h.l
    m_coords := h.m
    n_coords := h.n
    elaz_el := h.elaz.map fun e => e.el
    elaz_az := h.elaz.map fun e => e.az }

/-- Embeds `Hemisphere::from_binary` of `sphere.rs`.  Modelled from the spec:
`bitcode` decoding of a valid encoding succeeds (external crate, not under
`src/`), so the input is the decoded record; the source then rebuilds the
hemisphere with a zeroed brightness array of length `npix`. -/
def Hemisphere.fromBinary (data : HemisphereData) : Except String Hemisphere :=
  let elazArr : List ElAz :=
    (data.elaz_el.zip data.elaz_az).map fun ea => ElAz.mk ea.1 ea.2
  Except.ok
    { nside := data.nside
      npix := data.npix
      visible_pix := List.replicate data.npix (0 : ℝ)
      visible_indices := data.visible_indices
      elaz := elazArr
      l := data.l_coords
      m := data.m_coords
      n := data.n_coords }

/-- The state of the thread-local single-slot hemisphere cache of
`wasm/cache.rs`: empty, or one `(nside, Hemisphere)` pair. -/
abbrev CacheState := Option (ℕ × Hemisphere)

/-- Embeds `get_or_create_hemisphere` of `wasm/cache.rs` as a state
transition: on a matching cached `nside` return a clone of the cached
hemisphere (cache unchanged); otherwise build `Hemisphere::new(nside)`,
store a clone, and return it.  Rust's `clone()` deep-copies every field, so
cloning is value copying here. -/
def getOrCreateHemisphere (cache : CacheState) (nside : ℕ) : Hemisphere × CacheState :=
  match cache with
  | some (cachedNside, cachedHemisphere) =>
    if cachedNside = nside then
      (cachedHemisphere, some (cachedNside, cachedHemisphere))
    else
      let newHemisphere := Hemisphere.new nside
      (newHemisphere, some (nside, newHemisphere))
  | none =>
    let newHemisphere := Hemisphere.new nside
    (newHemisphere, some (nside, newHemisphere))

/-- Embeds `clear_hemisphere_cache` of `wasm/cache.rs`. -/
def clearHemisphereCache (_cache : CacheState) : CacheState := none

/-- The reachable states of the hemisphere cache: initially empty, then
closed under `get_or_create_hemisphere` and `clear_hemisphere_cache`.
Callers only ever receive value copies, so caller-side mutation of a
returned hemisphere cannot alter the cache state. -/
inductive CacheReachable : CacheState → Prop
  | init : CacheReachable none
  | step (s : CacheState) (nside : ℕ) (h : CacheReachable s) :
      CacheReachable (getOrCreateHemisphere s nside).2
  | clear (s : CacheState) (h : CacheReachable s) :
      CacheReachable (clearHemisphereCache s)

/-!  ## Helper lemmas on lists -/

/-- Reading a mapped range at an in-range index. -/
lemma getD_map_range {α : Type} (f : ℕ → α) (d : α) {k nn : ℕ} (hk : k < nn) :
    ((List.range nn).map f).getD k d = f k := by
  rw [List.getD_eq_getElem _ _ (by simpa using hk)]
  simp

/-- Reading a replicated list at an in-range index. -/
lemma getD_replicate {α : Type} (x d : α) {i nn : ℕ} (hi : i < nn) :
    (List.replicate nn x).getD i d = x := by
  rw [List.getD_eq_getElem _ _ (by simpa using hi)]
  simp

/-!  ## Helper lemmas on the fast trigonometry primitives -/

/-- The sine approximation polynomial of `fast_sin_cos`, on the reduced range. -/
def sinP (r : ℝ) : ℝ := r * (1 - r * r * (1 / 6 - r * r * (1 / 120 - r * r / 5040)))

/-- The cosine approximation polynomial of `fast_sin_cos`, on the reduced range. -/
def cosP (r : ℝ) : ℝ := 1 - r * r * (1 / 2 - r * r * (1 / 24 - r * r / 720))

/-- The angle produced by the range-reduction step of `fast_sin_cos`. -/
def reduceAngle (x : ℝ) : ℝ := x - (rustRound (x * (1 / TWO_PI)) : ℝ) * TWO_PI

/-- Rounding half away from zero lands within distance `1/2`. -/
lemma rustRound_dist (y : ℝ) : |y - (rustRound y : ℝ)| ≤ 1 / 2 := by
  unfold rustRound
  split_ifs with h
  · have h1 := Int.sub_one_lt_floor (y + 1 / 2)
    have h2 := Int.floor_le (y + 1 / 2)
    rw [abs_le]
    exact ⟨by linarith, by linarith⟩
  · have h1 := Int.sub_one_lt_floor (-y + 1 / 2)
    have h2 := Int.floor_le (-y + 1 / 2)
    rw [abs_le]
    push_cast
    exact ⟨by linarith, by linarith⟩

/-- The range reduction of `fast_sin_cos` produces an angle in `[-π, π]`. -/
lemma reduceAngle_abs_le (x : ℝ) : |reduceAngle x| ≤ PI := by
  have hpi : (0 : ℝ) < PI := Real.pi_pos
  have h2pi : (0 : ℝ) < TWO_PI := by unfold TWO_PI; linarith
  have h := rustRound_dist (x * (1 / TWO_PI))
  have key : reduceAngle x =
      (x * (1 / TWO_PI) - (rustRound (x * (1 / TWO_PI)) : ℝ)) * TWO_PI := by
    unfold reduceAngle
    field_simp
    ring
  rw [key, abs_mul, abs_of_pos h2pi]
  calc |x * (1 / TWO_PI) - (rustRound (x * (1 / TWO_PI)) : ℝ)| * TWO_PI
      ≤ (1 / 2) * TWO_PI := mul_le_mul_of_nonneg_right h (le_of_lt h2pi)
    _ = PI := by unfold TWO_PI; ring

/-- `fast_sin_cos` on a small reduced angle: the symmetry branch is trivial. -/
lemma fastSinCos_le_half (x : ℝ) (h1 : |reduceAngle x| ≤ PI_HALF) :
    fastSinCos x =
      (sinP |reduceAngle x| * (if 0 ≤ reduceAngle x then (1 : ℝ) else -1),
       cosP |reduceAngle x|) := by
  simp only [fastSinCos, sinP, cosP]
  rw [show x - (rustRound (x * (1 / TWO_PI)) : ℝ) * TWO_PI = reduceAngle x from rfl]
  rw [if_pos h1]
  simp [mul_comm]

/-- `fast_sin_cos` on a large reduced angle: the symmetry branch folds the
angle to `π − |angle|` and flips the cosine sign. -/
lemma fastSinCos_gt_half (x : ℝ) (h1 : ¬ |reduceAngle x| ≤ PI_HALF) :
    fastSinCos x =
      (sinP (PI - |reduceAngle x|) * (if 0 ≤ reduceAngle x then (1 : ℝ) else -1),
       cosP (PI - |reduceAngle x|) * (-1)) := by
  simp only [fastSinCos, sinP, cosP]
  rw [show x - (rustRound (x * (1 / TWO_PI)) : ℝ) * TWO_PI = reduceAngle x from rfl]
  rw [if_neg h1]

/-- Every `fast_sin_cos` output is, up to sign, a value of the reduced-range
approximation polynomials at some reduced angle in `[0, π/2]`; in particular
the squares of the two components are values of `sinP²` and `cosP²` there. -/
lemma fastSinCos_sq (x : ℝ) :
    ∃ r : ℝ, 0 ≤ r ∧ r ≤ PI_HALF ∧
      (fastSinCos x).1 ^ 2 = sinP r ^ 2 ∧ (fastSinCos x).2 ^ 2 = cosP r ^ 2 := by
  have habs := reduceAngle_abs_le x
  have hsq : (if 0 ≤ reduceAngle x then (1 : ℝ) else -1) ^ 2 = 1 := by
    split_ifs <;> norm_num
  by_cases h1 : |reduceAngle x| ≤ PI_HALF
  · refine ⟨|reduceAngle x|, abs_nonneg _, h1, ?_, ?_⟩
    · rw [fastSinCos_le_half x h1, mul_pow, hsq, mul_one]
    · rw [fastSinCos_le_half x h1]
  · have h0 : 0 ≤ PI - |reduceAngle x| := by linarith
    have h2 : PI - |reduceAngle x| ≤ PI_HALF := by
      push_neg at h1
      unfold PI_HALF at h1 ⊢
      linarith
    refine ⟨PI - |reduceAngle x|, h0, h2, ?_, ?_⟩
    · rw [fastSinCos_gt_half x h1, mul_pow, hsq, mul_one]
    · rw [fastSinCos_gt_half x h1]
      ring

/-- On `[0, π/2]` the range reduction of `fast_sin_cos` is trivial and the
output is exactly the pair of approximation polynomials. -/
lemma fastSinCos_of_nonneg_le (x : ℝ) (h0 : 0 ≤ x) (h1 : x ≤ PI_HALF) :
    fastSinCos x = (sinP x, cosP x) := by
  have hpi : (0 : ℝ) < PI := Real.pi_pos
  have h2pi : (0 : ℝ) < TWO_PI := by unfold TWO_PI; linarith
  have hround : rustRound (x * (1 / TWO_PI)) = 0 := by
    have hx4 : x * (1 / TWO_PI) < 1 / 2 := by
      rw [mul_one_div, div_lt_iff₀ h2pi]
      unfold PI_HALF at h1
      unfold TWO_PI
      nlinarith
    have hx0 : 0 ≤ x * (1 / TWO_PI) := by positivity
    unfold rustRound
    rw [if_pos hx0, Int.floor_eq_zero_iff, Set.mem_Ico]
    exact ⟨by linarith, by linarith⟩
  have hangle : reduceAngle x = x := by
    unfold reduceAngle
    rw [hround]
    push_cast
    ring
  have habs : |reduceAngle x| ≤ PI_HALF := by rw [hangle, abs_of_nonneg h0]; exact h1
  rw [fastSinCos_le_half x habs, hangle, abs_of_nonneg h0, if_pos h0, mul_one]

/-- `fast_sin_cos 0 = (0, 1)` exactly. -/
lemma fastSinCos_zero : fastSinCos 0 = (0, 1) := by
  have hpi : (0 : ℝ) < PI := Real.pi_pos
  rw [fastSinCos_of_nonneg_le 0 le_rfl (by unfold PI_HALF; linarith)]
  unfold sinP cosP
  norm_num

/-- `fast_magnitude` agrees with the complex absolute value. -/
lemma fastMagnitude_eq_abs (z : ℂ) : fastMagnitude z = Complex.abs z := by
  simp only [fastMagnitude]
  split_ifs with h
  · simp [Complex.normSq_eq_zero.mp h]
  · rw [Complex.abs_apply]

/-!  ## Accuracy of the fast trigonometry polynomials

The sum `sinP r ^ 2 + cosP r ^ 2` deviates from `1` by an explicitly
bounded polynomial on the reduced range `[0, π/2]`; this is all that is
needed for the unit-norm property of the computed direction cosines. -/

/-- Exact closed form of the deviation of `sinP² + cosP²` from `1`. -/
lemma sinP_cosP_identity (r : ℝ) :
    sinP r ^ 2 + cosP r ^ 2 - 1 =
      -((r ^ 2) ^ 4 * (5 / 2 - r ^ 2)) / 50400 -
        ((r ^ 2) ^ 6 * (35 - r ^ 2)) / 25401600 := by
  unfold sinP cosP
  ring

/-- On the reduced range, `sinP² + cosP²` is within `4.8e-4` of `1`. -/
lemma sinP_cosP_close (r : ℝ) (h0 : 0 ≤ r) (h1 : r ≤ PI_HALF) :
    |sinP r ^ 2 + cosP r ^ 2 - 1| ≤ 48 / 100000 := by
  have hpi : PI ≤ 63 / 20 := by
    unfold PI
    have := Real.pi_lt_d2
    norm_num at this
    linarith
  have hr1 : r ≤ 63 / 40 := by
    unfold PI_HALF at h1
    linarith
  have ht : r ^ 2 ≤ 3969 / 1600 := by nlinarith
  have ht0 : (0 : ℝ) ≤ r ^ 2 := sq_nonneg r
  set t := r ^ 2 with hts
  have hcube : (0 : ℝ) ≤ t ^ 3 + 3 / 2 * t ^ 2 + 2 * t + 2 := by
    have := pow_nonneg ht0 3
    have := pow_nonneg ht0 2
    linarith
  have hfact : 8 - t ^ 4 * (5 / 2 - t) = (t - 2) ^ 2 * (t ^ 3 + 3 / 2 * t ^ 2 + 2 * t + 2) := by
    ring
  have h8 : t ^ 4 * (5 / 2 - t) ≤ 8 := by
    nlinarith [mul_nonneg (sq_nonneg (t - 2)) hcube]
  have h8b : (0 : ℝ) ≤ t ^ 4 * (5 / 2 - t) :=
    mul_nonneg (pow_nonneg ht0 4) (by linarith)
  have ht6 : t ^ 6 ≤ (3969 / 1600 : ℝ) ^ 6 := pow_le_pow_left₀ ht0 ht 6
  have h35 : t ^ 6 * (35 - t) ≤ 35 * (3969 / 1600 : ℝ) ^ 6 := by
    nlinarith [pow_nonneg ht0 6]
  have h35b : (0 : ℝ) ≤ t ^ 6 * (35 - t) :=
    mul_nonneg (pow_nonneg ht0 6) (by linarith)
  rw [sinP_cosP_identity, abs_le, ← hts]
  constructor
  · have hq : (8 : ℝ) / 50400 + 35 * (3969 / 1600 : ℝ) ^ 6 / 25401600 ≤ 48 / 100000 := by
      norm_num
    have e1 : t ^ 4 * (5 / 2 - t) / 50400 ≤ 8 / 50400 := by linarith
    have e2 : t ^ 6 * (35 - t) / 25401600 ≤ 35 * (3969 / 1600 : ℝ) ^ 6 / 25401600 := by
      linarith
    linarith
  · have e1 : (0 : ℝ) ≤ t ^ 4 * (5 / 2 - t) / 50400 := by linarith
    have e2 : (0 : ℝ) ≤ t ^ 6 * (35 - t) / 25401600 := by linarith
    linarith

/-- On the reduced range, the cosine polynomial stays within `[-1, 1]`. -/
lemma cosP_sq_le_one (el : ℝ) (h0 : 0 ≤ el) (h1 : el ≤ PI_HALF) :
    cosP el ^ 2 ≤ 1 := by
  have hpi : PI ≤ 63 / 20 := by
    unfold PI
    have := Real.pi_lt_d2
    norm_num at this
    linarith
  have hr1 : el ≤ 63 / 40 := by
    unfold PI_HALF at h1
    linarith
  have ht : el ^ 2 ≤ 3969 / 1600 := by nlinarith
  have ht0 : (0 : ℝ) ≤ el ^ 2 := sq_nonneg el
  have hup : cosP el ≤ 1 := by
    unfold cosP
    nlinarith [sq_nonneg (el ^ 2 - 15), pow_nonneg ht0 2, pow_nonneg ht0 3]
  have hlo : -1 ≤ cosP el := by
    unfold cosP
    nlinarith [pow_nonneg ht0 2, pow_nonneg ht0 3,
      mul_nonneg (pow_nonneg ht0 2) (by linarith : (0 : ℝ) ≤ 30 - el ^ 2)]
  nlinarith

/-- Combined accuracy bound for a direction-cosine triple computed from two
`fast_sin_cos` evaluations: the azimuth may be arbitrary, the elevation lies
in `[0, π/2]`, and `l² + m² + n²` stays strictly within `1e-3` of `1`. -/
lemma lmn_norm_bound (az el : ℝ) (h0 : 0 ≤ el) (h1 : el ≤ PI_HALF) :
    |((fastSinCos az).1 * (fastSinCos el).2) ^ 2 +
      ((fastSinCos az).2 * (fastSinCos el).2) ^ 2 +
      (fastSinCos el).1 ^ 2 - 1| < 1 / 1000 := by
  obtain ⟨r, hr0, hr1, hs, hc⟩ := fastSinCos_sq az
  rw [fastSinCos_of_nonneg_le el h0 h1]
  have expand :
      ((fastSinCos az).1 * cosP el) ^ 2 + ((fastSinCos az).2 * cosP el) ^ 2 +
        sinP el ^ 2 - 1 =
      cosP el ^ 2 * ((fastSinCos az).1 ^ 2 + (fastSinCos az).2 ^ 2 - 1) +
        (sinP el ^ 2 + cosP el ^ 2 - 1) := by
    ring
  rw [expand, hs, hc]
  have gr := sinP_cosP_close r hr0 hr1
  have gel := sinP_cosP_close el h0 h1
  have hcos := cosP_sq_le_one el h0 h1
  have hcos0 : (0 : ℝ) ≤ cosP el ^ 2 := sq_nonneg _
  calc |cosP el ^ 2 * (sinP r ^ 2 + cosP r ^ 2 - 1) + (sinP el ^ 2 + cosP el ^ 2 - 1)|
      ≤ |cosP el ^ 2 * (sinP r ^ 2 + cosP r ^ 2 - 1)| +
          |sinP el ^ 2 + cosP el ^ 2 - 1| := abs_add _ _
    _ = cosP el ^ 2 * |sinP r ^ 2 + cosP r ^ 2 - 1| +
          |sinP el ^ 2 + cosP el ^ 2 - 1| := by
        rw [abs_mul, abs_of_nonneg hcos0]
    _ ≤ 1 * (48 / 100000) + 48 / 100000 := by
        have := mul_le_mul hcos gr (abs_nonneg _) (by norm_num : (0 : ℝ) ≤ 1)
        have h2 : cosP el ^ 2 * |sinP r ^ 2 + cosP r ^ 2 - 1| ≤ 1 * (48 / 100000) := by
          calc cosP el ^ 2 * |sinP r ^ 2 + cosP r ^ 2 - 1|
              ≤ cosP el ^ 2 * (48 / 100000) := by
                exact mul_le_mul_of_nonneg_left gr hcos0
            _ ≤ 1 * (48 / 100000) := by nlinarith
        linarith
    _ < 1 / 1000 := by norm_num

/-!  ## The accumulation loop of `reconstruct_sky_image` -/

/-- Reading a mapped list at an in-range index (arbitrary defaults). -/
lemma getD_map_of_lt {α β : Type} (f : α → β) (l : List α) {p : ℕ} (hp : p < l.length)
    (d : β) (d2 : α) : (l.map f).getD p d = f (l.getD p d2) := by
  rw [List.getD_eq_getElem _ _ (by simpa using hp), List.getD_eq_getElem _ _ hp]
  simp

/-- `accumStep` preserves the pixel-array length. -/
lemma accumStep_length (v : ℂ) (acc harmonic : List ℂ) :
    (accumStep v acc harmonic).length = acc.length := by
  simp [accumStep]

/-- Pointwise reading of one accumulation step: the explicit real/imaginary
update of the source is complex multiply-accumulate. -/
lemma accumStep_getD (v : ℂ) (acc harmonic : List ℂ) {p : ℕ} (hp : p < acc.length) :
    (accumStep v acc harmonic).getD p 0 = acc.getD p 0 + v * harmonic.getD p 0 := by
  unfold accumStep
  rw [getD_map_range _ _ hp]
  apply Complex.ext <;>
    simp [Complex.add_re, Complex.add_im, Complex.mul_re, Complex.mul_im]

/-- The accumulation fold of `reconstruct_sky_image`, cut off after the first
`m` baselines (a proof-side abbreviation of the `foldl` in the source). -/
def accumFold (vis : List ℂ) (harmonics : List (List ℂ)) (numPix m : ℕ) : List ℂ :=
  (List.range m).foldl
    (fun acc baselineIdx =>
      accumStep (vis.getD baselineIdx 0) acc (harmonics.getD baselineIdx []))
    (List.replicate numPix (0 : ℂ))

/-- Unfolding one more baseline of the accumulation fold. -/
lemma accumFold_succ (vis : List ℂ) (harmonics : List (List ℂ)) (numPix m : ℕ) :
    accumFold vis harmonics numPix (m + 1) =
      accumStep (vis.getD m 0) (accumFold vis harmonics numPix m) (harmonics.getD m []) := by
  unfold accumFold
  rw [List.range_succ, List.foldl_append]
  rfl

/-- The accumulation fold preserves the pixel-array length. -/
lemma accumFold_length (vis : List ℂ) (harmonics : List (List ℂ)) (numPix m : ℕ) :
    (accumFold vis harmonics numPix m).length = numPix := by
  induction m with
  | zero => simp [accumFold]
  | succ m ih => rw [accumFold_succ, accumStep_length, ih]

/-- The accumulation fold computes, per pixel, the finite sum of
visibility-weighted harmonics over the baselines. -/
lemma accumFold_getD (vis : List ℂ) (harmonics : List (List ℂ)) (numPix : ℕ) {p : ℕ}
    (hp : p < numPix) (m : ℕ) :
    (accumFold vis harmonics numPix m).getD p 0 =
      ∑ k ∈ Finset.range m, vis.getD k 0 * (harmonics.getD k []).getD p 0 := by
  induction m with
  | zero => simp [accumFold, getD_replicate _ _ hp]
  | succ m ih =>
    rw [accumFold_succ,
      accumStep_getD _ _ _ (by rw [accumFold_length]; exact hp), ih,
      Finset.sum_range_succ]

/-- Reading a single harmonic out of `compute_fourier_harmonics`. -/
lemma computeFourierHarmonics_getD (sky : Hemisphere) (uCoords vCoords wCoords : List ℝ)
    {k : ℕ} (hk : k < uCoords.length) {p : ℕ} (hp : p < sky.visible_pix.length) :
    ((computeFourierHarmonics sky uCoords vCoords wCoords).getD k []).getD p 0 =
      harmonicAt sky (uCoords.getD k 0) (vCoords.getD k 0) (wCoords.getD k 0) p := by
  unfold computeFourierHarmonics
  rw [getD_map_range _ _ hk, getD_map_range _ _ hp]

/-- Evaluation of `reconstruct_sky_image` on well-formed input: the length
checks pass, the pixel array is rebuilt from the accumulation fold, and the
result is `Ok`. -/
lemma reconstruct_ok_eval (visibilities : List ℂ) (uCoords vCoords wCoords : List ℝ)
    (sky : Hemisphere) (useRealOnly : Bool)
    (hu : visibilities.length = uCoords.length) (hv : visibilities.length = vCoords.length)
    (hw : visibilities.length = wCoords.length) (hnz : sky.visible_pix.length ≠ 0) :
    reconstructSkyImage visibilities uCoords vCoords wCoords sky useRealOnly =
      (Except.ok (), { sky with visible_pix :=
        if useRealOnly then
          ((accumFold visibilities
              (computeFourierHarmonics sky uCoords vCoords wCoords)
              sky.visible_pix.length visibilities.length).map
            (fun pixel => pixel.re * (Real.sqrt (sky.visible_pix.length : ℝ))⁻¹))
        else
          ((accumFold visibilities
              (computeFourierHarmonics sky uCoords vCoords wCoords)
              sky.visible_pix.length visibilities.length).map
            (fun pixel => fastMagnitude pixel * (Real.sqrt (sky.visible_pix.length : ℝ))⁻¹)) }) := by
  unfold reconstructSkyImage accumFold
  rw [if_neg (by push_neg; exact ⟨hu, hv, hw⟩), if_neg hnz]

/-!  ## Spec-side definitions for the reconstruction formula (claim C1)

These definitions follow the wording of the specification, for comparison
with the code-side definitions above. -/

/-- Spec-side formula: `phase = -2π·(u·l + v·m + w·(n − 1))` and
harmonic `(cos phase, sin phase)`, trigonometry via the program's
`fast_sin_cos` path. -/
def specHarmonic (sky : Hemisphere) (u v w : ℝ) (p : ℕ) : ℂ :=
  let phase : ℝ :=
    -(2 * Real.pi) * (u * sky.l.getD p 0 + v * sky.m.getD p 0 + w * (sky.n.getD p 0 - 1))
  ⟨(fastSinCos phase).2, (fastSinCos phase).1⟩

/-- Spec-side reduction of a complex accumulator to a real value: real part
when `use_real_only`, complex magnitude otherwise. -/
def specReduce (useRealOnly : Bool) (z : ℂ) : ℝ :=
  if useRealOnly then z.re else Complex.abs z

/-- Spec-side formula for the new brightness of visible pixel `p`:
`reduce(Σ_k vis_k · harmonic_{k,p}) · (1/√npix)` with `npix` the
visible-pixel count. -/
def specPixelValue (visibilities : List ℂ) (uCoords vCoords wCoords : List ℝ)
    (sky : Hemisphere) (useRealOnly : Bool) (p : ℕ) : ℝ :=
  specReduce useRealOnly
      (∑ k ∈ Finset.range visibilities.length,
        visibilities.getD k 0 *
          specHarmonic sky (uCoords.getD k 0) (vCoords.getD k 0) (wCoords.getD k 0) p) *
    (1 / Real.sqrt (sky.visible_pix.length : ℝ))

/-- The code-side harmonic coincides with the spec-side harmonic. -/
lemma harmonicAt_eq_spec (sky : Hemisphere) (u v w : ℝ) (p : ℕ) :
    harmonicAt sky u v w p = specHarmonic sky u v w p := rfl

/-- Evaluation of `reconstruct_sky_image` on mismatched array lengths: the
first guard fires and the hemisphere is returned unchanged. -/
lemma reconstruct_mismatch_eval (visibilities : List ℂ) (uCoords vCoords wCoords : List ℝ)
    (sky : Hemisphere) (useRealOnly : Bool)
    (h : ¬(visibilities.length = uCoords.length ∧ visibilities.length = vCoords.length ∧
      visibilities.length = wCoords.length)) :
    reconstructSkyImage visibilities uCoords vCoords wCoords sky useRealOnly =
      (Except.error "Visibility and coordinate arrays must have same length", sky) := by
  unfold reconstructSkyImage
  rw [if_pos (by tauto)]

/-- Evaluation of `reconstruct_sky_image` on an empty sky: the second guard
fires and the hemisphere is returned unchanged. -/
lemma reconstruct_empty_eval (visibilities : List ℂ) (uCoords vCoords wCoords : List ℝ)
    (sky : Hemisphere) (useRealOnly : Bool)
    (hu : visibilities.length = uCoords.length) (hv : visibilities.length = vCoords.length)
    (hw : visibilities.length = wCoords.length) (h0 : sky.visible_pix.length = 0) :
    reconstructSkyImage visibilities uCoords vCoords wCoords sky useRealOnly =
      (Except.error "Sky hemisphere has no visible pixels", sky) := by
  unfold reconstructSkyImage
  rw [if_neg (by push_neg; exact ⟨hu, hv, hw⟩), if_pos h0]

/-- C1: for every call of `reconstruct_sky_image` that returns `Ok` and every
visible pixel `p`, the new brightness at `p` equals
`reduce(Σ_k visibilities[k] · (cos phase_{k,p}, sin phase_{k,p})) · (1/√npix)`
with `phase_{k,p} = -2π·(u_k·l_p + v_k·m_p + w_k·(n_p − 1))`, `npix` the
visible-pixel count, and `reduce` the real part when `use_real_only` and the
complex magnitude otherwise (trigonometry via the `fast_sin_cos` path). -/
theorem C1_reconstruct_matches_spec
    (visibilities : List ℂ) (uCoords vCoords wCoords : List ℝ) (sky : Hemisphere)
    (useRealOnly : Bool) (sky2 : Hemisphere)
    (hok : reconstructSkyImage visibilities uCoords vCoords wCoords sky useRealOnly =
      (Except.ok (), sky2))
    (p : ℕ) (hp : p < sky.visible_pix.length) :
    sky2.visible_pix.getD p 0 =
      specPixelValue visibilities uCoords vCoords wCoords sky useRealOnly p := by
  by_cases hlen : visibilities.length = uCoords.length ∧
      visibilities.length = vCoords.length ∧ visibilities.length = wCoords.length
  case neg =>
    rw [reconstruct_mismatch_eval _ _ _ _ _ _ hlen] at hok
    simp at hok
  obtain ⟨hu, hv, hw⟩ := hlen
  by_cases h0 : sky.visible_pix.length = 0
  case pos =>
    rw [reconstruct_empty_eval _ _ _ _ _ _ hu hv hw h0] at hok
    simp at hok
  rw [reconstruct_ok_eval _ _ _ _ _ _ hu hv hw h0] at hok
  have hsky2 := (Prod.mk.injEq _ _ _ _ ▸ hok).2
  subst hsky2
  have hplen : p < (accumFold visibilities
      (computeFourierHarmonics sky uCoords vCoords wCoords)
      sky.visible_pix.length visibilities.length).length := by
    rw [accumFold_length]
    exact hp
  have hsum : (accumFold visibilities
        (computeFourierHarmonics sky uCoords vCoords wCoords)
        sky.visible_pix.length visibilities.length).getD p 0 =
      ∑ k ∈ Finset.range visibilities.length,
        visibilities.getD k 0 *
          specHarmonic sky (uCoords.getD k 0) (vCoords.getD k 0) (wCoords.getD k 0) p := by
    rw [accumFold_getD _ _ _ hp]
    refine Finset.sum_congr rfl fun k hk => ?_
    rw [computeFourierHarmonics_getD sky uCoords vCoords wCoords
      (hu ▸ Finset.mem_range.mp hk) hp, harmonicAt_eq_spec]
  rcases useRealOnly with _ | _
  · simp only [Bool.false_eq_true, if_false]
    rw [getD_map_of_lt _ _ hplen _ 0, hsum, fastMagnitude_eq_abs]
    unfold specPixelValue specReduce
    simp [one_div]
  · simp only [if_true]
    rw [getD_map_of_lt _ _ hplen _ 0, hsum]
    unfold specPixelValue specReduce
    simp [one_div]

/-- C2: `reconstruct_sky_image` fails with the length-mismatch error exactly
when the four input arrays disagree in length (this check takes precedence),
fails with the empty-sky error when the lengths agree but the hemisphere has
no visible pixels, succeeds in all other cases, and on every error path the
hemisphere — in particular its brightness array — is returned unchanged. -/
theorem C2_error_handling
    (visibilities : List ℂ) (uCoords vCoords wCoords : List ℝ) (sky : Hemisphere)
    (useRealOnly : Bool) :
    (¬(visibilities.length = uCoords.length ∧ visibilities.length = vCoords.length ∧
        visibilities.length = wCoords.length) →
      reconstructSkyImage visibilities uCoords vCoords wCoords sky useRealOnly =
        (Except.error "Visibility and coordinate arrays must have same length", sky)) ∧
    (visibilities.length = uCoords.length → visibilities.length = vCoords.length →
      visibilities.length = wCoords.length → sky.visible_pix.length = 0 →
      reconstructSkyImage visibilities uCoords vCoords wCoords sky useRealOnly =
        (Except.error "Sky hemisphere has no visible pixels", sky)) ∧
    (visibilities.length = uCoords.length → visibilities.length = vCoords.length →
      visibilities.length = wCoords.length → sky.visible_pix.length ≠ 0 →
      (reconstructSkyImage visibilities uCoords vCoords wCoords sky useRealOnly).1 =
        Except.ok ()) := by
  refine ⟨fun h => reconstruct_mismatch_eval _ _ _ _ _ _ h,
    fun hu hv hw h0 => reconstruct_empty_eval _ _ _ _ _ _ hu hv hw h0,
    fun hu hv hw h0 => ?_⟩
  rw [reconstruct_ok_eval _ _ _ _ _ _ hu hv hw h0]

/-- C9: `reconstruct_sky_image` modifies only the brightness array: whether
it succeeds or fails, every geometry field of the resulting hemisphere equals
the corresponding field of the input hemisphere (the inputs themselves are
values in this embedding and cannot be mutated). -/
theorem C9_frame_condition
    (visibilities : List ℂ) (uCoords vCoords wCoords : List ℝ) (sky : Hemisphere)
    (useRealOnly : Bool) :
    (reconstructSkyImage visibilities uCoords vCoords wCoords sky useRealOnly).2.nside =
        sky.nside ∧
    (reconstructSkyImage visibilities uCoords vCoords wCoords sky useRealOnly).2.npix =
        sky.npix ∧
    (reconstructSkyImage visibilities uCoords vCoords wCoords sky
        useRealOnly).2.visible_indices = sky.visible_indices ∧
    (reconstructSkyImage visibilities uCoords vCoords wCoords sky useRealOnly).2.elaz =
        sky.elaz ∧
    (reconstructSkyImage visibilities uCoords vCoords wCoords sky useRealOnly).2.l = sky.l ∧
    (reconstructSkyImage visibilities uCoords vCoords wCoords sky useRealOnly).2.m = sky.m ∧
    (reconstructSkyImage visibilities uCoords vCoords wCoords sky useRealOnly).2.n =
        sky.n := by
  by_cases hlen : visibilities.length = uCoords.length ∧
      visibilities.length = vCoords.length ∧ visibilities.length = wCoords.length
  case neg =>
    rw [reconstruct_mismatch_eval _ _ _ _ _ _ hlen]
    exact ⟨rfl, rfl, rfl, rfl, rfl, rfl, rfl⟩
  obtain ⟨hu, hv, hw⟩ := hlen
  by_cases h0 : sky.visible_pix.length = 0
  case pos =>
    rw [reconstruct_empty_eval _ _ _ _ _ _ hu hv hw h0]
    exact ⟨rfl, rfl, rfl, rfl, rfl, rfl, rfl⟩
  rw [reconstruct_ok_eval _ _ _ _ _ _ hu hv hw h0]
  exact ⟨rfl, rfl, rfl, rfl, rfl, rfl, rfl⟩

/-- The harmonic of the zero baseline `(u, v, w) = (0, 0, 0)` is exactly `1`:
the phase vanishes and `fast_sin_cos 0 = (0, 1)` even on the fast path. -/
lemma harmonicAt_zero (sky : Hemisphere) (p : ℕ) : harmonicAt sky 0 0 0 p = 1 := by
  simp only [harmonicAt]
  have hphase : -TWO_PI * (0 * sky.l.getD p 0 + 0 * sky.m.getD p 0 +
      0 * (sky.n.getD p 0 - 1)) = 0 := by ring
  rw [hphase, fastSinCos_zero]
  apply Complex.ext <;> simp

/-- C6: on any hemisphere with at least one visible pixel, reconstruction
from the single baseline `(u, v, w) = (0, 0, 0)` with visibility `1 + 0i` and
`use_real_only = true` succeeds and sets every brightness value to the
uniform constant `1/√(pixel count)`. -/
theorem C6_zero_baseline_uniform (sky : Hemisphere) (hnz : 0 < sky.visible_pix.length) :
    (reconstructSkyImage [1] [0] [0] [0] sky true).1 = Except.ok () ∧
    (reconstructSkyImage [1] [0] [0] [0] sky true).2.visible_pix.length =
      sky.visible_pix.length ∧
    ∀ p < sky.visible_pix.length,
      (reconstructSkyImage [1] [0] [0] [0] sky true).2.visible_pix.getD p 0 =
        1 / Real.sqrt (sky.visible_pix.length : ℝ) := by
  have hnz2 : sky.visible_pix.length ≠ 0 := hnz.ne'
  rw [reconstruct_ok_eval [1] [0] [0] [0] sky true rfl rfl rfl hnz2]
  refine ⟨rfl, ?_, ?_⟩
  · simp [accumFold_length]
  · intro p hp
    have hplen : p < (accumFold [1] (computeFourierHarmonics sky [0] [0] [0])
        sky.visible_pix.length 1).length := by
      rw [accumFold_length]
      exact hp
    simp only [if_true, List.length_singleton]
    rw [getD_map_of_lt _ _ hplen _ 0, accumFold_getD _ _ _ hp]
    rw [Finset.sum_range_one,
      computeFourierHarmonics_getD sky [0] [0] [0] (by norm_num) hp]
    simp only [List.getD]
    norm_num [harmonicAt_zero, one_div]

/-!  ## Parallel-array invariant (claim C8) -/

/-- The parallel-array invariant of a `Hemisphere`: every per-pixel array has
length `npix`. -/
def hemisphereInvariant (h : Hemisphere) : Prop :=
  h.visible_pix.length = h.npix ∧ h.visible_indices.length = h.npix ∧
    h.elaz.length = h.npix ∧ h.l.length = h.npix ∧ h.m.length = h.npix ∧
    h.n.length = h.npix

/-- C8: every hemisphere produced by the tessellation constructor satisfies
the parallel-array invariant; the constructor is a pure function of `nside`,
so the pixel set and its order are deterministic; and a successful
`reconstruct_sky_image` call preserves the invariant. -/
theorem C8_parallel_array_invariant :
    (∀ nside, hemisphereInvariant (Hemisphere.new nside)) ∧
    (∀ nside (h1 h2 : Hemisphere), h1 = Hemisphere.new nside → h2 = Hemisphere.new nside →
      h1.visible_indices = h2.visible_indices ∧ h1 = h2) ∧
    (∀ (visibilities : List ℂ) (uCoords vCoords wCoords : List ℝ) (sky : Hemisphere)
      (useRealOnly : Bool) (sky2 : Hemisphere),
      hemisphereInvariant sky →
      reconstructSkyImage visibilities uCoords vCoords wCoords sky useRealOnly =
        (Except.ok (), sky2) →
      hemisphereInvariant sky2) := by
  refine ⟨?_, ?_, ?_⟩
  · intro nside
    unfold Hemisphere.new computeNewScalar hemisphereInvariant
    simp
  · intro nside h1 h2 e1 e2
    rw [e1, e2]
    exact ⟨rfl, rfl⟩
  · intro visibilities uCoords vCoords wCoords sky useRealOnly sky2 hinv hok
    by_cases hlen : visibilities.length = uCoords.length ∧
        visibilities.length = vCoords.length ∧ visibilities.length = wCoords.length
    case neg =>
      rw [reconstruct_mismatch_eval _ _ _ _ _ _ hlen] at hok
      simp at hok
    obtain ⟨hu, hv, hw⟩ := hlen
    by_cases h0 : sky.visible_pix.length = 0
    case pos =>
      rw [reconstruct_empty_eval _ _ _ _ _ _ hu hv hw h0] at hok
      simp at hok
    rw [reconstruct_ok_eval _ _ _ _ _ _ hu hv hw h0] at hok
    have hsky2 := (Prod.mk.injEq _ _ _ _ ▸ hok).2
    subst hsky2
    obtain ⟨hpix, hrest⟩ := hinv
    refine ⟨?_, hrest⟩
    rcases useRealOnly with _ | _ <;>
      simp [accumFold_length, hpix]

/-!  ## The single-slot hemisphere cache (claims C3 and C10) -/

/-- The brightness array of a freshly built hemisphere is all zeros. -/
lemma hemisphere_new_zeros (nside : ℕ) :
    (Hemisphere.new nside).visible_pix = List.replicate (Hemisphere.new nside).npix 0 := by
  unfold Hemisphere.new computeNewScalar
  simp [List.map_const']

/-- Cache invariant: in every reachable cache state, the stored hemisphere is
exactly the one the constructor builds for the stored `nside`. -/
lemma cache_inv (s : CacheState) (hs : CacheReachable s) :
    ∀ nn hh, s = some (nn, hh) → hh = Hemisphere.new nn := by
  induction hs with
  | init => intro nn hh h; cases h
  | step s0 nside hs0 ih =>
    intro nn hh h
    unfold getOrCreateHemisphere at h
    cases s0 with
    | none =>
      simp at h
      obtain ⟨h1, h2⟩ := h
      rw [← h2, h1]
    | some pair =>
      obtain ⟨cn, ch⟩ := pair
      simp only at h
      split_ifs at h with heq
      · simp at h
        obtain ⟨h1, h2⟩ := h
        rw [← h2, ← h1]
        exact ih cn ch rfl
      · simp at h
        obtain ⟨h1, h2⟩ := h
        rw [← h2, h1]
  | clear s0 hs0 ih =>
    intro nn hh h
    simp [clearHemisphereCache] at h

/-- The hemisphere returned by the cache, from any reachable state, is the
value a fresh `Hemisphere::new(nside)` would produce. -/
lemma getOrCreate_fst (s : CacheState) (hs : CacheReachable s) (nside : ℕ) :
    (getOrCreateHemisphere s nside).1 = Hemisphere.new nside := by
  have hinv := cache_inv s hs
  unfold getOrCreateHemisphere
  cases s with
  | none => rfl
  | some pair =>
    obtain ⟨cn, ch⟩ := pair
    simp only
    split_ifs with heq
    · rw [hinv cn ch rfl, heq]
    · rfl

/-- C3: from every reachable cache state, `get_or_create_hemisphere(nside)`
returns a hemisphere equal, field by field, to a freshly built
`Hemisphere::new(nside)`; in particular two consecutive calls with the same
`nside` return equal hemispheres.  The returned value is a copy by value
semantics (Rust `clone` of owned data), so callers mutate their copies
independently of the cache. -/
theorem C3_cache_refines_rebuild (s : CacheState) (hs : CacheReachable s) (nside : ℕ) :
    (getOrCreateHemisphere s nside).1 = Hemisphere.new nside ∧
    (getOrCreateHemisphere (getOrCreateHemisphere s nside).2 nside).1 =
      Hemisphere.new nside := by
  exact ⟨getOrCreate_fst s hs nside,
    getOrCreate_fst _ (CacheReachable.step s nside hs) nside⟩

/-- C10: in every reachable cache state the cached entry's brightness array
is all zeros, and every hemisphere returned by `get_or_create_hemisphere` —
on a hit as well as a miss — has an all-zero brightness array. -/
theorem C10_cache_brightness_always_zero (s : CacheState) (hs : CacheReachable s)
    (nside : ℕ) :
    (∀ nn hh, s = some (nn, hh) → hh.visible_pix = List.replicate hh.npix 0) ∧
    (getOrCreateHemisphere s nside).1.visible_pix =
      List.replicate (getOrCreateHemisphere s nside).1.npix 0 := by
  constructor
  · intro nn hh h
    rw [cache_inv s hs nn hh h]
    exact hemisphere_new_zeros nn
  · rw [getOrCreate_fst s hs nside]
    exact hemisphere_new_zeros nside

/-!  ## Antenna calibration (claim C4) -/

/-- The calibration rotation of the source, `-(0 + (pᵢ - pⱼ)·i)`, is the
spec-side `-i·(pᵢ - pⱼ)`. -/
lemma neg_mk_eq_neg_mul_I (d : ℝ) : (-(⟨0, d⟩ : ℂ)) = -((d : ℂ) * Complex.I) := by
  apply Complex.ext <;> simp

/-- C4: `apply_gains_optimized` returns one calibrated visibility per input
visibility, `vis_k · gain_i · gain_j · exp(-i·(phase_i - phase_j))` for
baseline `(i, j)`; with all gains `1` and all phase offsets `0` it is the
identity transform. -/
theorem C4_apply_gains (baselines : List (ℕ × ℕ)) (visArr : List ℂ) (cal : Gains)
    (hlen : visArr.length = baselines.length)
    (hrange : ∀ k < baselines.length,
      (baselines.getD k (0, 0)).1 < cal.gain.length ∧
      (baselines.getD k (0, 0)).2 < cal.gain.length ∧
      (baselines.getD k (0, 0)).1 < cal.phase_offset.length ∧
      (baselines.getD k (0, 0)).2 < cal.phase_offset.length) :
    (applyGainsOptimized baselines visArr cal).length = visArr.length ∧
    (∀ k < baselines.length,
      (applyGainsOptimized baselines visArr cal).getD k 0 =
        visArr.getD k 0 * ((cal.gain.getD (baselines.getD k (0, 0)).1 0 : ℝ) : ℂ) *
          ((cal.gain.getD (baselines.getD k (0, 0)).2 0 : ℝ) : ℂ) *
          Complex.exp (-(((cal.phase_offset.getD (baselines.getD k (0, 0)).1 0 -
            cal.phase_offset.getD (baselines.getD k (0, 0)).2 0 : ℝ) : ℂ) * Complex.I))) ∧
    ((∀ a < cal.gain.length, cal.gain.getD a 0 = 1) →
      (∀ a < cal.phase_offset.length, cal.phase_offset.getD a 0 = 0) →
      applyGainsOptimized baselines visArr cal = visArr) := by
  have hlen2 : (applyGainsOptimized baselines visArr cal).length = visArr.length := by
    unfold applyGainsOptimized
    rw [List.length_map, List.length_range, hlen]
  have hval : ∀ k < baselines.length,
      (applyGainsOptimized baselines visArr cal).getD k 0 =
        visArr.getD k 0 * ((cal.gain.getD (baselines.getD k (0, 0)).1 0 : ℝ) : ℂ) *
          ((cal.gain.getD (baselines.getD k (0, 0)).2 0 : ℝ) : ℂ) *
          Complex.exp (-(((cal.phase_offset.getD (baselines.getD k (0, 0)).1 0 -
            cal.phase_offset.getD (baselines.getD k (0, 0)).2 0 : ℝ) : ℂ) * Complex.I)) := by
    intro k hk
    unfold applyGainsOptimized
    rw [getD_map_range _ _ hk, ← neg_mk_eq_neg_mul_I]
  refine ⟨hlen2, hval, ?_⟩
  intro hg hp
  apply List.ext_getElem (by rw [hlen2, hlen])
  intro i hi1 hi2
  have hik : i < baselines.length := by
    rw [hlen2, hlen] at hi1
    exact hi1
  obtain ⟨hg1, hg2, hp1, hp2⟩ := hrange i hik
  rw [← List.getD_eq_getElem _ 0 hi1, ← List.getD_eq_getElem _ 0 hi2, hval i hik,
    hg _ hg1, hg _ hg2, hp _ hp1, hp _ hp2]
  norm_num

/-!  ## Binary serialization round trip (claim C7) -/

/-- Splitting a list of `ElAz` values into its component lists and zipping
them back together is the identity. -/
lemma elaz_zip_map (l : List ElAz) :
    ((l.map fun e => e.el).zip (l.map fun e => e.az)).map
      (fun ea => ElAz.mk ea.1 ea.2) = l := by
  induction l with
  | nil => rfl
  | cons x xs ih => simp [ih]

/-- C7: decoding the encoding of a hemisphere succeeds and reproduces every
geometry field (`nside`, `npix`, `visible_indices`, `l`, `m`, `n`, `elaz`)
exactly, while the brightness array comes back as the all-zero array of
length `npix` regardless of the brightness values held before encoding. -/
theorem C7_binary_roundtrip (h : Hemisphere) :
    Hemisphere.fromBinary (Hemisphere.toBinary h) =
      Except.ok { h with visible_pix := List.replicate h.npix 0 } := by
  unfold Hemisphere.toBinary Hemisphere.fromBinary
  rw [elaz_zip_map]

/-!  ## Tessellation geometry (claim C5) -/

/-- A valid resolution parameter: a positive power of two. -/
def isPow2 (nn : ℕ) : Prop := ∃ k, nn = 2 ^ k

/-- The center of tessellation pixel `0` lies strictly above the horizon. -/
lemma centerZ_zero_pos (nside : ℕ) (h1 : 1 ≤ nside) : 0 < centerZ nside 0 := by
  unfold centerZ
  by_cases hc : 0 < nCap nside
  · rw [if_pos hc]
    have hcap : capRing 0 = 1 := by decide
    rw [hcap]
    have hn : (1 : ℚ) ≤ (nside : ℚ) := by exact_mod_cast h1
    have hpos : (0 : ℚ) < 3 * (nside : ℚ) ^ 2 := by nlinarith
    rw [sub_pos, div_lt_one hpos]
    push_cast
    nlinarith
  · have hn1 : nside = 1 := by
      unfold nCap at hc
      rcases Nat.lt_or_ge nside 2 with h | h
      · omega
      · exfalso
        apply hc
        have : 1 ≤ nside - 1 := by omega
        calc 0 < 2 * 2 * 1 := by norm_num
          _ ≤ 2 * nside * (nside - 1) := by
              apply Nat.mul_le_mul
              · exact Nat.mul_le_mul_left 2 h
              · exact this
    subst hn1
    norm_num [nCap, nHash]

/-- Pixel `0` passes the visibility filter for every positive `nside`. -/
lemma zero_mem_visibleList (nside : ℕ) (h1 : 1 ≤ nside) : 0 ∈ visibleList nside := by
  unfold visibleList
  rw [List.mem_filter]
  refine ⟨List.mem_range.mpr ?_, ?_⟩
  · unfold nHash
    have : 0 < nside := h1
    positivity
  · rw [decide_eq_true_iff]
    unfold pixTheta
    rw [sub_lt_self_iff]
    show (0 : ℝ) < (center nside 0).2
    unfold center
    apply Real.arcsin_pos.mpr
    exact_mod_cast centerZ_zero_pos nside h1

/-- The elevation computed for any pixel equals the latitude returned by the
tessellation center, i.e. `arcsin z`. -/
lemma pixEl_eq_lat (nside p : ℕ) : pixEl nside p = (center nside p).2 := by
  unfold pixEl pixTheta
  ring

/-- Every pixel kept by the visibility filter has elevation in `[0, π/2]`. -/
lemma pixEl_mem (nside p : ℕ) (hmem : p ∈ visibleList nside) :
    0 ≤ pixEl nside p ∧ pixEl nside p ≤ PI_HALF := by
  have hfilter := (List.mem_filter.mp hmem).2
  rw [decide_eq_true_iff] at hfilter
  unfold pixTheta at hfilter
  rw [sub_lt_self_iff] at hfilter
  rw [pixEl_eq_lat]
  constructor
  · exact le_of_lt hfilter
  · show (center nside p).2 ≤ PI_HALF
    unfold center PI_HALF PI
    exact Real.arcsin_le_pi_div_two _

/-- C5: for every valid power-of-two `nside`, the built hemisphere has a
strictly positive visible-pixel count, and every visible pixel's direction
cosines — computed through the `fast_sin_cos` path — satisfy
`|l² + m² + n² − 1| < 1e-3`. -/
theorem C5_tessellation_unit_norm (nside : ℕ) (hp2 : isPow2 nside) :
    0 < (Hemisphere.new nside).npix ∧
    ∀ p < (Hemisphere.new nside).npix,
      |(Hemisphere.new nside).l.getD p 0 ^ 2 + (Hemisphere.new nside).m.getD p 0 ^ 2 +
        (Hemisphere.new nside).n.getD p 0 ^ 2 - 1| < 1 / 1000 := by
  have h1 : 1 ≤ nside := by
    obtain ⟨k, rfl⟩ := hp2
    exact Nat.one_le_two_pow
  constructor
  · show 0 < (visibleList nside).length
    exact List.length_pos.mpr (List.ne_nil_of_mem (zero_mem_visibleList nside h1))
  · intro p hp
    have hp2 : p < (visibleList nside).length := hp
    have hl : (Hemisphere.new nside).l.getD p 0 =
        pixL nside ((visibleList nside).getD p 0) := getD_map_of_lt _ _ hp2 _ 0
    have hm : (Hemisphere.new nside).m.getD p 0 =
        pixM nside ((visibleList nside).getD p 0) := getD_map_of_lt _ _ hp2 _ 0
    have hn : (Hemisphere.new nside).n.getD p 0 =
        pixN nside ((visibleList nside).getD p 0) := getD_map_of_lt _ _ hp2 _ 0
    rw [hl, hm, hn]
    have hmem : (visibleList nside).getD p 0 ∈ visibleList nside := by
      rw [List.getD_eq_getElem _ _ hp2]
      exact List.getElem_mem hp2
    obtain ⟨hel0, hel1⟩ := pixEl_mem nside _ hmem
    unfold pixL pixM pixN
    exact lmn_norm_bound (pixAz nside ((visibleList nside).getD p 0))
      (pixEl nside ((visibleList nside).getD p 0)) hel0 hel1

/-!  ## Concrete witnesses -/

/-- A small concrete hemisphere (one zenith pixel) used to exercise the
reconstruction theorems on explicit input. -/
def skyEx : Hemisphere :=
  { nside := 1, npix := 1, visible_pix := [0], visible_indices := [0],
    elaz := [ElAz.mk 0 0], l := [0], m := [0], n := [1] }

/-- A concrete hemisphere with no visible pixels, for the empty-sky error. -/
def emptySkyEx : Hemisphere :=
  { nside := 1, npix := 0, visible_pix := [], visible_indices := [],
    elaz := [], l := [], m := [], n := [] }

/-- Witness for C1 at a concrete successful call. -/
theorem C1_witness :
    reconstructSkyImage [1] [0] [0] [0] skyEx true =
      (Except.ok (), (reconstructSkyImage [1] [0] [0] [0] skyEx true).2) ∧
    (0 : ℕ) < skyEx.visible_pix.length ∧
    (reconstructSkyImage [1] [0] [0] [0] skyEx true).2.visible_pix.getD 0 0 =
      specPixelValue [1] [0] [0] [0] skyEx true 0 := by
  have hok : reconstructSkyImage [1] [0] [0] [0] skyEx true =
      (Except.ok (), (reconstructSkyImage [1] [0] [0] [0] skyEx true).2) := by
    rw [reconstruct_ok_eval [1] [0] [0] [0] skyEx true rfl rfl rfl (by norm_num [skyEx])]
  exact ⟨hok, by norm_num [skyEx],
    C1_reconstruct_matches_spec [1] [0] [0] [0] skyEx true _ hok 0 (by norm_num [skyEx])⟩

/-- Witness for C2 at concrete mismatched, empty-sky and successful calls. -/
theorem C2_witness :
    reconstructSkyImage [1] ([] : List ℝ) [] [] skyEx true =
      (Except.error "Visibility and coordinate arrays must have same length", skyEx) ∧
    reconstructSkyImage ([] : List ℂ) [] [] [] emptySkyEx true =
      (Except.error "Sky hemisphere has no visible pixels", emptySkyEx) ∧
    (reconstructSkyImage [1] [0] [0] [0] skyEx true).1 = Except.ok () :=
  ⟨(C2_error_handling [1] [] [] [] skyEx true).1 (by norm_num),
    (C2_error_handling [] [] [] [] emptySkyEx true).2.1 rfl rfl rfl (by norm_num [emptySkyEx]),
    (C2_error_handling [1] [0] [0] [0] skyEx true).2.2 rfl rfl rfl (by norm_num [skyEx])⟩

/-- Witness for C3 from the initial (empty, reachable) cache state. -/
theorem C3_witness :
    (getOrCreateHemisphere none 1).1 = Hemisphere.new 1 ∧
    (getOrCreateHemisphere (getOrCreateHemisphere none 1).2 1).1 = Hemisphere.new 1 :=
  C3_cache_refines_rebuild none CacheReachable.init 1

/-- Witness for C4 at a concrete baseline list with identity calibration. -/
theorem C4_witness :
    (applyGainsOptimized [(0, 1)] [⟨2, 3⟩] ⟨[1, 1], [0, 0]⟩).length = 1 ∧
    applyGainsOptimized [(0, 1)] [⟨2, 3⟩] ⟨[1, 1], [0, 0]⟩ = [⟨2, 3⟩] := by
  have hrange : ∀ k < ([(0, 1)] : List (ℕ × ℕ)).length,
      (([(0, 1)] : List (ℕ × ℕ)).getD k (0, 0)).1 < ([1, 1] : List ℝ).length ∧
      (([(0, 1)] : List (ℕ × ℕ)).getD k (0, 0)).2 < ([1, 1] : List ℝ).length ∧
      (([(0, 1)] : List (ℕ × ℕ)).getD k (0, 0)).1 < ([0, 0] : List ℝ).length ∧
      (([(0, 1)] : List (ℕ × ℕ)).getD k (0, 0)).2 < ([0, 0] : List ℝ).length := by
    intro k hk
    have hk0 : k = 0 := by
      simp at hk
      omega
    subst hk0
    refine ⟨?_, ?_, ?_, ?_⟩ <;> norm_num [List.getD]
  have h := C4_apply_gains [(0, 1)] [⟨2, 3⟩] ⟨[1, 1], [0, 0]⟩ rfl hrange
  refine ⟨by simpa using h.1, h.2.2 ?_ ?_⟩
  · intro a ha
    simp at ha
    interval_cases a <;> norm_num [List.getD]
  · intro a ha
    simp at ha
    interval_cases a <;> norm_num [List.getD]

/-- Witness for C5 at the concrete resolution `nside = 1 = 2⁰`. -/
theorem C5_witness : isPow2 1 ∧ 0 < (Hemisphere.new 1).npix :=
  ⟨⟨0, rfl⟩, (C5_tessellation_unit_norm 1 ⟨0, rfl⟩).1⟩

/-- Witness for C6 on the concrete one-pixel hemisphere. -/
theorem C6_witness :
    (0 : ℕ) < skyEx.visible_pix.length ∧
    (reconstructSkyImage [1] [0] [0] [0] skyEx true).1 = Except.ok () :=
  ⟨by norm_num [skyEx], (C6_zero_baseline_uniform skyEx (by norm_num [skyEx])).1⟩

/-- Witness for C8: the invariant holds for the built hemisphere at
`nside = 1` and is preserved across a concrete successful reconstruction. -/
theorem C8_witness :
    hemisphereInvariant (Hemisphere.new 1) ∧
    hemisphereInvariant (reconstructSkyImage [1] [0] [0] [0] skyEx true).2 := by
  refine ⟨C8_parallel_array_invariant.1 1, ?_⟩
  have hok : reconstructSkyImage [1] [0] [0] [0] skyEx true =
      (Except.ok (), (reconstructSkyImage [1] [0] [0] [0] skyEx true).2) := by
    rw [reconstruct_ok_eval [1] [0] [0] [0] skyEx true rfl rfl rfl (by norm_num [skyEx])]
  exact C8_parallel_array_invariant.2.2 [1] [0] [0] [0] skyEx true _
    (by norm_num [hemisphereInvariant, skyEx]) hok

/-- Witness for C10 from the initial (empty, reachable) cache state. -/
theorem C10_witness :
    (getOrCreateHemisphere none 1).1.visible_pix =
      List.replicate (getOrCreateHemisphere none 1).1.npix 0 :=
  (C10_cache_brightness_always_zero none CacheReachable.init 1).2

end

end Tart
